import Mathlib

/-!
Verification development for the sourcegraph-codecov editor extension.

The TypeScript sources are shallowly embedded here:
* `settings.ts` — two versions appear in the source file; the first
  (object-valued `codecov.decorations`) is embedded in namespace `SettingsOne`,
  the second (flat boolean fields) in namespace `SettingsTwo`.  Their
  `resolveEndpoints` / `urlWithOnlyProtocolAndHost` helpers are textually
  identical and are embedded once, at top level.
* `model.ts` — the pure derivations (`toLineCoverage`, `toCoverageRatio`,
  `getFileCoverageRatios`, …) over an already-fetched `CodecovCommitData`
  response; the HTTP fetch itself is treated as the environment.
* `extension.ts` — the second (stateful) version of the controller, the one
  with the `initialized` flag and `lastOpenedTextDocument` tracking, matching
  the unnamed source file as well.  Handlers are embedded as pure functions
  from controller state (plus an environment describing the outcomes of the
  remote fetches) to a new state, a list of emitted host events, and a
  thrown/normal outcome.
* `uri.ts` is not among the sources; its two functions are modelled from the
  specification (see their doc comments).

JavaScript semantics whose behaviour the code relies on (`parseInt`,
`parseFloat`, `new URL`, object key/insertion-order semantics, truthiness)
are modelled by executable Lean functions defined first.  JS `undefined` is
modelled as `Option.none`; machine floats are modelled as `ℚ` (the numbers
involved are decimal coverage ratios and integer hit counts; NaN is modelled
as `Option.none` where the code can produce it).
-/

/-! ## Models of JavaScript built-ins -/

/-- Characters treated as leading whitespace by `parseInt`/`parseFloat`. -/
def jsWhitespace (c : Char) : Bool :=
  c = ' ' || c = '\t' || c = '\n' || c = '\r'

/-- Numeric value of a list of decimal digit characters. -/
def digitsVal (l : List Char) : Nat :=
  l.foldl (fun a c => a * 10 + (c.toNat - 48)) 0

/-- Model of JS `parseInt(s, 10)`: optional sign then decimal digits, ignoring
leading whitespace and trailing garbage; `none` models `NaN`. -/
def jsParseInt (s : String) : Option Int :=
  let l := s.data.dropWhile jsWhitespace
  let sign : Int := match l with
    | '-' :: _ => -1
    | _ => 1
  let l1 := match l with
    | '-' :: t => t
    | '+' :: t => t
    | _ => l
  let d := l1.takeWhile Char.isDigit
  if d.isEmpty then none else some (sign * (digitsVal d : Int))

/-- Exponent suffix of a JS float literal: optional sign then digits; an
exponent with no digits is invalid and contributes factor 1 (`parseFloat`
stops before it). -/
def parseExpSuffix (t : List Char) : Int :=
  match t with
  | '-' :: u =>
    if (u.takeWhile Char.isDigit).isEmpty then 0
    else -(digitsVal (u.takeWhile Char.isDigit) : Int)
  | '+' :: u =>
    if (u.takeWhile Char.isDigit).isEmpty then 0
    else (digitsVal (u.takeWhile Char.isDigit) : Int)
  | u =>
    if (u.takeWhile Char.isDigit).isEmpty then 0
    else (digitsVal (u.takeWhile Char.isDigit) : Int)

/-- Model of JS `parseFloat(s)`: optional sign, integer part, optional
fractional part, optional exponent, ignoring leading whitespace and trailing
garbage; `none` models `NaN`.  The value
`sign · intpart.fracpart · 10^exp` is represented exactly, built with
`mkRat` so that it evaluates by kernel reduction.  (The `Infinity` literal
is outside the model: the ratio strings this program parses are decimal
numbers or junk like `"n/a"`.) -/
def jsParseFloat (s : String) : Option ℚ :=
  let l := s.data.dropWhile jsWhitespace
  let sign : Int := match l with
    | '-' :: _ => -1
    | _ => 1
  let l1 := match l with
    | '-' :: t => t
    | '+' :: t => t
    | _ => l
  let ip := l1.takeWhile Char.isDigit
  let l2 := l1.dropWhile Char.isDigit
  let fp := match l2 with
    | '.' :: t => t.takeWhile Char.isDigit
    | _ => []
  let l3 := match l2 with
    | '.' :: t => t.dropWhile Char.isDigit
    | _ => l2
  if ip.isEmpty && fp.isEmpty then none
  else
    let base : Int := (digitsVal ip * 10 ^ fp.length + digitsVal fp : Nat)
    let expv : Int := match l3 with
      | 'e' :: t => parseExpSuffix t
      | 'E' :: t => parseExpSuffix t
      | _ => 0
    if 0 ≤ expv then
      some (mkRat (sign * base * (10 : Int) ^ expv.toNat) (10 ^ fp.length))
    else
      some (mkRat (sign * base) (10 ^ fp.length * 10 ^ (-expv).toNat))

/-- Splitting a character list at every occurrence of a separator, keeping
empty pieces, as JS `String.prototype.split` does with a one-character
separator (`"".split(c)` is `[""]`).  `acc` holds the current piece
reversed. -/
def splitOnCharAux (sep : Char) : List Char → List Char → List (List Char)
  | [], acc => [acc.reverse]
  | c :: t, acc =>
    if c = sep then acc.reverse :: splitOnCharAux sep t []
    else splitOnCharAux sep t (c :: acc)

/-- Model of JS `s.split(sep)` for a one-character separator. -/
def splitOnChar (sep : Char) (l : List Char) : List (List Char) :=
  splitOnCharAux sep l []

/-- Join character lists with `'/'` separators (used to rebuild the tail of
a repository identifier). -/
def joinSlash : List (List Char) → List Char
  | [] => []
  | [x] => x
  | x :: rest => x ++ '/' :: joinSlash rest

/-- Model of a JS object property write `m[k] = v`: updating an existing key
keeps its insertion position; a fresh key is appended. -/
def objSet {α : Type} (m : List (String × α)) (k : String) (v : α) :
    List (String × α) :=
  if m.any (fun p => p.1 == k) then
    m.map (fun p => if p.1 == k then (k, v) else p)
  else m ++ [(k, v)]

/-- Model of JS `Math.floor`. -/
def jsFloor (q : ℚ) : Int :=
  Int.fdiv q.num (q.den : Int)

/-- Model of JS `Number.prototype.toFixed(1)` for a nonnegative rational:
`⌊q·10 + 1/2⌋ = ⌊(20·num + den) / (2·den)⌋`, then one decimal digit. -/
def toFixed1 (q : ℚ) : String :=
  let n : Nat := (Int.fdiv (20 * q.num + (q.den : Int)) (2 * (q.den : Int))).toNat
  toString (n / 10) ++ "." ++ toString (n % 10)

/-! ## Model of the WHATWG `URL` constructor, as used by
`urlWithOnlyProtocolAndHost` (settings.ts).  Only hierarchical
`scheme://…` URLs are modelled (the configured endpoints are http/https);
an unparsable URL is `none`, modelling the thrown `TypeError`.
Scheme/host case normalization and default-port elision are outside the
model: no configuration value the claims mention exercises them. -/

/-- The two `URL` components the source reads: `url.protocol` is
`scheme ++ ":"`, `url.host` is the authority after any userinfo. -/
structure JSURL where
  scheme : List Char
  host : List Char
deriving DecidableEq, Repr

/-- Characters that end the authority component. -/
def isAuthorityEnd (c : Char) : Bool :=
  c = '/' || c = '?' || c = '#'

/-- Characters allowed in a URL scheme. -/
def validSchemeChar (c : Char) : Bool :=
  c.isAlpha || c.isDigit || c = '+' || c = '-' || c = '.'

/-- Validate the scheme and extract the host from what follows `://`: the
authority runs until `/`, `?` or `#`, and the host is what follows the last
`@` (userinfo is dropped, as `url.host` does). -/
def parseAuthority (scheme rest : List Char) : Option JSURL :=
  let auth := rest.takeWhile (fun c => !isAuthorityEnd c)
  let host := (auth.reverse.takeWhile (fun c => c != '@')).reverse
  if scheme.isEmpty || !scheme.all validSchemeChar || host.isEmpty then none
  else some ⟨scheme, host⟩

/-- Parse `scheme://[userinfo@]host[/path][?query][#fragment]`. -/
def parseURLChars (l : List Char) : Option JSURL :=
  match l.dropWhile (fun c => c != ':') with
  | ':' :: '/' :: '/' :: rest =>
    parseAuthority (l.takeWhile (fun c => c != ':')) rest
  | _ => none

/-- The string `${url.protocol}//${url.host}`. -/
def JSURL.protocolAndHost (j : JSURL) : String :=
  String.mk (j.scheme ++ ':' :: '/' :: '/' :: j.host)

/-- settings.ts `urlWithOnlyProtocolAndHost`; `none` models the `TypeError`
thrown by `new URL` on an unparsable string. -/
def urlWithOnlyProtocolAndHost (urlStr : String) : Option String :=
  (parseURLChars urlStr.data).map JSURL.protocolAndHost

/-! ## settings.ts — shared endpoint resolution (identical in both versions
of the file) -/

/-- settings.ts `Endpoint`: `url: string`, optional `token`. -/
structure Endpoint where
  url : String
  token : Option String
deriving DecidableEq, Repr

/-- settings.ts `CODECOV_IO_URL`. -/
def CODECOV_IO_URL : String := "https://codecov.io"

/-- The element-wise body of `resolveEndpoints`'s `endpoints.map(...)`:
`url ? urlWithOnlyProtocolAndHost(url) : CODECOV_IO_URL`, token passed
through.  A parse failure anywhere aborts the whole map (the exception
propagates), hence the `Option` result. -/
def mapEndpoints : List Endpoint → Option (List Endpoint)
  | [] => some []
  | e :: rest =>
    match (if e.url = "" then some CODECOV_IO_URL
           else urlWithOnlyProtocolAndHost e.url) with
    | none => none
    | some u => (mapEndpoints rest).map (fun r => ⟨u, e.token⟩ :: r)

/-- settings.ts `resolveEndpoints` (the argument is the raw
`codecov.endpoints` value; `none` models an absent property).  If the user
supplied no endpoints (or an empty list) the public default is used. -/
def resolveEndpoints (endpoints : Option (List Endpoint)) :
    Option (List Endpoint) :=
  match endpoints with
  | none => some [⟨CODECOV_IO_URL, none⟩]
  | some es =>
    if es.isEmpty then some [⟨CODECOV_IO_URL, none⟩]
    else mapEndpoints es

namespace SettingsOne

/-! First version of settings.ts: `codecov.decorations` is an object with
optional boolean fields. -/

/-- settings.ts `DecorationSettings`: all fields optional (JS key may be
absent, modelled `none`). -/
structure DecorationSettings where
  hide : Option Bool
  lineBackgroundColors : Option Bool
  lineHitCounts : Option Bool
deriving DecidableEq, Repr

/-- settings.ts `Settings` (resolved). -/
structure Settings where
  decorations : DecorationSettings
  endpoints : List Endpoint
deriving DecidableEq, Repr

/-- settings.ts `RawSettings`: both properties optional. -/
structure RawSettings where
  decorations : Option DecorationSettings
  endpoints : Option (List Endpoint)
deriving DecidableEq, Repr

/-- settings.ts `resolveDecorations`.  Note which keys each returned object
literal carries: `{ lineBackgroundColors: true }` has no `hide` and no
`lineHitCounts` key (`none`), `{ hide: true }` has only `hide`, and the
general branch carries `lineBackgroundColors` and `lineHitCounts` but not
`hide`. -/
def resolveDecorations (decorations : Option DecorationSettings) :
    DecorationSettings :=
  match decorations with
  | none => ⟨none, some true, none⟩
  | some d =>
    if d.hide = some true then ⟨some true, none, none⟩
    else ⟨none, some (d.lineBackgroundColors ≠ some false),
          some (d.lineHitCounts = some true)⟩

/-- settings.ts `resolveSettings` (first version); `none` models the
exception thrown by endpoint URL parsing. -/
def resolveSettings (raw : RawSettings) : Option Settings :=
  (resolveEndpoints raw.endpoints).map
    (fun eps => ⟨resolveDecorations raw.decorations, eps⟩)

/-- The TypeScript coercion `Settings ≤ RawSettings` used when feeding a
resolved value back into `resolveSettings`: every property is present. -/
def settingsToRaw (s : Settings) : RawSettings :=
  ⟨some s.decorations, some s.endpoints⟩

end SettingsOne

namespace SettingsTwo

/-! Second version of settings.ts: flat boolean settings.  This is the
version the stateful controller (extension.ts, second version) reads. -/

/-- settings.ts `Settings` (resolved): `codecov.showCoverage`,
`codecov.decorations.lineCoverage`, `codecov.decorations.lineHitCounts`,
`codecov.endpoints`. -/
structure Settings where
  showCoverage : Bool
  lineCoverage : Bool
  lineHitCounts : Bool
  endpoints : List Endpoint
deriving DecidableEq, Repr

/-- The raw merged configuration actually handed to `resolveSettings` (typed
`Settings` in the source but unvalidated at runtime): every property may be
absent. -/
structure RawSettings where
  showCoverage : Option Bool
  lineCoverage : Option Bool
  lineHitCounts : Option Bool
  endpoints : Option (List Endpoint)
deriving DecidableEq, Repr

/-- settings.ts `resolveSettings` (second version):
`raw[…] !== false` defaults to true, `!!raw[…]` defaults to false;
`none` models the exception thrown by endpoint URL parsing. -/
def resolveSettings (raw : RawSettings) : Option Settings :=
  (resolveEndpoints raw.endpoints).map
    (fun eps => ⟨raw.showCoverage ≠ some false, raw.lineCoverage ≠ some false,
                 raw.lineHitCounts = some true, eps⟩)

end SettingsTwo

/-! ## model.ts — normalization of the Codecov commit-coverage response

The response schema (api.ts).  JSON objects are modelled as association
lists in insertion order (JS object keys are unique; where a derivation
relies on that, the theorems hypothesize it).  A JSON line value is a
number, a `"hits/branches"` string, or `null`. -/

/-- One value of the per-file `l` line map in the response. -/
inductive LineValue where
  | num (n : ℚ)
  | str (s : String)
  | null
deriving DecidableEq, Repr

/-- Per-file totals object; `c` is the ratio string. -/
structure FileTotals where
  c : String
deriving DecidableEq, Repr

/-- Per-file data: line map `l` and totals `t`. -/
structure FileData where
  l : List (String × LineValue)
  t : FileTotals
deriving DecidableEq, Repr

/-- Commit-level totals; `coverage` may be absent. -/
structure CommitTotals where
  coverage : Option ℚ
deriving DecidableEq, Repr

/-- `commit.report`: the per-file table. -/
structure CommitReport where
  files : List (String × FileData)
deriving DecidableEq, Repr

/-- The `commit` object of the response. -/
structure CommitData where
  report : CommitReport
  totals : CommitTotals
deriving DecidableEq, Repr

/-- api.ts `CodecovCommitData`. -/
structure CodecovCommitData where
  commit : CommitData
deriving DecidableEq, Repr

/-- model.ts `LineCoverage`:
`number | { hits: number; branches: number } | null`.  `hits`/`branches`
are `parseInt` results, so each is `Option Int` (`none` models JS `NaN`,
and also a missing second split segment, which the source leaves
`undefined`). -/
inductive LineCoverage where
  | num (n : ℚ)
  | branch (hits branches : Option Int)
  | null
deriving DecidableEq, Repr

/-- model.ts `toCoverageRatio`: `undefined` (`none`) when the file entry is
missing, its ratio string is falsy (empty), or the string parses to NaN. -/
def toCoverageRatio (fileData : Option FileData) : Option ℚ :=
  match fileData with
  | none => none
  | some fd =>
    if fd.t.c = "" then none
    else jsParseFloat fd.t.c

/-- model.ts `Model.getFileCoverageRatios`, applied to an already-fetched
response: for each file entry, `if (ratio) ratios[path] = ratio` — the JS
truthiness test also drops a ratio of `0`. -/
def getFileCoverageRatios (data : CodecovCommitData) : List (String × ℚ) :=
  data.commit.report.files.foldl
    (fun ratios pf =>
      match toCoverageRatio (some pf.2) with
      | some ratio => if ratio = 0 then ratios else objSet ratios pf.1 ratio
      | none => ratios)
    []

/-- model.ts `getFileCoverageRatio` (single file). -/
def getFileCoverageRatio (data : CodecovCommitData) (path : String) :
    Option ℚ :=
  toCoverageRatio (List.lookup path data.commit.report.files)

/-- model.ts `Model.getCommitCoverageRatio`, applied to an already-fetched
response. -/
def getCommitCoverageRatio (data : CodecovCommitData) : Option ℚ :=
  data.commit.totals.coverage

/-- The property key `result[line]` where `line = parseInt(lineStr, 10)`:
JS stringifies the number again, `NaN` giving the key `"NaN"`. -/
def lineKey (lineStr : String) : String :=
  match jsParseInt lineStr with
  | some n => toString n
  | none => "NaN"

/-- The value stored by one iteration of model.ts `toLineCoverage`:
a number or `null` is stored as-is; a string is `split('/', 2)` and each
piece `parseInt`ed into `{ hits, branches }`. -/
def decodeLineValue : LineValue → LineCoverage
  | .num n => .num n
  | .null => .null
  | .str s =>
    let parts := (splitOnChar '/' s.data).take 2
    .branch (jsParseInt (String.mk (parts.headD [])))
      (match parts.get? 1 with
       | some b => jsParseInt (String.mk b)
       | none => none)

/-- model.ts `toLineCoverage`: decode the line map of `path`'s file entry;
an absent entry gives the empty mapping. -/
def toLineCoverage (data : CodecovCommitData) (path : String) :
    List (String × LineCoverage) :=
  match List.lookup path data.commit.report.files with
  | none => []
  | some fd =>
    fd.l.foldl
      (fun result kv => objSet result (lineKey kv.1) (decodeLineValue kv.2))
      []

/-! ## uri.ts — modelled from the spec (the file is not among the sources;
only its importers are). -/

/-- Location identity: `repo`, `rev`, `path`. -/
structure ResolvedURI where
  repo : String
  rev : String
  path : String
deriving DecidableEq, Repr

/-- The root kept by the controller: `Pick<ResolvedURI, 'repo' | 'rev'>`. -/
structure RootPair where
  repo : String
  rev : String
deriving DecidableEq, Repr

/-- Failures of location resolution. -/
inductive URIErr where
  | malformedURI
  | missingRoot
deriving DecidableEq, Repr

/-- Decidable equality for `Except` results (not derived in core). -/
instance exceptDecEq {ε α : Type} [DecidableEq ε] [DecidableEq α] :
    DecidableEq (Except ε α) := fun x y =>
  match x, y with
  | .ok a, .ok b =>
    if h : a = b then .isTrue (by rw [h]) else .isFalse (by simp [h])
  | .ok _, .error _ => .isFalse (by simp)
  | .error _, .ok _ => .isFalse (by simp)
  | .error e, .error f =>
    if h : e = f then .isTrue (by rw [h]) else .isFalse (by simp [h])

/-- Modelled from the spec: `resolveURI` (uri.ts).  "fails with
`MalformedURI` if `uri` cannot be parsed into scheme + authority + path
components, or fails with `MissingRoot` if the URI does not self-describe a
repo/revision and no ambient `root` was supplied.  A self-describing URI has
the form `scheme://repo-authority?revision#path`; if present,
repo/revision/path come from the URI and `root` is ignored; otherwise
repo/revision come from `root` and path is taken from the whole URI's path
component." -/
def resolveURI (root : Option RootPair) (uri : String) :
    Except URIErr ResolvedURI :=
  let l := uri.data
  let scheme := l.takeWhile (fun c => c != ':')
  match l.dropWhile (fun c => c != ':') with
  | ':' :: '/' :: '/' :: rest =>
    if scheme.isEmpty then .error .malformedURI
    else
      let repoPart := rest.takeWhile (fun c => c != '?' && c != '#')
      let afterRepo := rest.dropWhile (fun c => c != '?' && c != '#')
      match afterRepo with
      | '?' :: qf =>
        let rev := qf.takeWhile (fun c => c != '#')
        let frag := match qf.dropWhile (fun c => c != '#') with
          | '#' :: f => f
          | _ => []
        .ok ⟨String.mk repoPart, String.mk rev, String.mk frag⟩
      | _ =>
        match root with
        | none => .error .missingRoot
        | some r =>
          let pathComp := repoPart.dropWhile (fun c => c != '/')
          let path := match pathComp with
            | '/' :: p => p
            | p => p
          .ok ⟨r.repo, r.rev, String.mk path⟩
  | _ => .error .malformedURI

/-- The parameter record built by `codecovParamsForRepositoryCommit`. -/
structure CodecovParams where
  service : String
  owner : String
  repo : String
  sha : String
deriving DecidableEq, Repr

/-- Modelled from the spec: `codecovParamsForRepositoryCommit` (uri.ts).
"splits `repo` on its first path segment to recover the hosting-service
slug and owner, and is fail-safe: if `repo` has no second segment, `owner`
is empty rather than raising." -/
def codecovParamsForRepositoryCommit (root : RootPair) : CodecovParams :=
  let segs := splitOnChar '/' root.repo.data
  { service := String.mk (segs.headD [])
    owner := String.mk ((segs.get? 1).getD [])
    repo := String.mk (joinSlash (segs.drop 2))
    sha := root.rev }

/-! ## extension.ts — the synchronization controller (second, stateful
version of the file; the unnamed source file matches it).

The module-level mutable variables become an explicit state record; each
host-event handler becomes a function from state (and a `RemoteEnv`
describing the outcome the remote Codecov service would give to each fetch
this handler performs) to a new state, the list of host-visible effects
emitted, and whether the handler threw.  `isEqual` (a lodash-style deep
equality from the host library) is modelled as structural equality, which
the embedding's types make exact: resolved settings objects always carry
the same key set. -/

/-- The command identifiers declared by the extension. -/
def TOGGLE_COVERAGE_DECORATIONS_COMMAND_ID : String :=
  "codecov.decorations.coverage.toggle"

/-- Command id for toggling hit counts. -/
def TOGGLE_HITS_DECORATIONS_COMMAND_ID : String :=
  "codecov.decorations.hits.toggle"

/-- Action id for the file coverage link. -/
def VIEW_FILE_COVERAGE_ACTION_ID : String := "codecov.link.file"

/-- Command id for the token prompt. -/
def SET_API_TOKEN_COMMAND_ID : String := "codecov.setAPIToken"

/-- Action id for the help link. -/
def HELP_ACTION_ID : String := "codecov.help"

/-- A value written to the client context store: this code path writes
strings and `null` only. -/
inductive CtxVal where
  | str (s : String)
  | null
deriving DecidableEq, Repr

/-- Host-visible effects of a handler run.  `publishDecorations` records a
decoration-publish notification for one document (its decoration payload —
decoration.ts is not among the sources — is not modelled; no claim concerns
it).  `contextRefresh` marks an invocation of
`updateFileCoverageClientContext`, `updateContext` its final
`connection.context.updateContext(...)` call, `logError` a
`connection.console.error(...)`. -/
inductive Event where
  | publishDecorations (uri : String)
  | contextRefresh
  | updateContext (ctx : List (String × CtxVal))
  | logError
deriving DecidableEq, Repr

/-- Whether an event is a decoration publish. -/
def Event.isPub : Event → Bool
  | .publishDecorations _ => true
  | _ => false

/-- Errors a handler can raise to the host. -/
inductive ExtErr where
  | alreadyInit
  | unknownCommand (cmd : String)
  | uriError (e : URIErr)
  | settingsError
  | typeError
deriving DecidableEq, Repr

/-- The controller's module-level mutable state: `initialized` (named
`inited` here), `root`, `settings` (definitely-assigned in the source, so
`undefined`/`none` until the first assignment), `lastOpenedTextDocument`,
plus the open-document set tracked by the host library's `TextDocuments`
(`textDocuments.all()`), as a list of document URIs. -/
structure ConnState where
  inited : Bool
  root : Option RootPair
  settings : Option SettingsTwo.Settings
  lastOpenedTextDocument : Option String
  openDocs : List String
deriving DecidableEq, Repr

/-- Outcomes of the remote fetches a single handler run can perform:
`none` models a rejected `codecovGetCommitCoverage` promise.  The three
fields are the response used by `publishDecorations`'s line-coverage
fetches, by `getCommitCoverageRatio`, and by `getFileCoverageRatios`
during a context refresh. -/
structure RemoteEnv where
  publishFetch : Option CodecovCommitData
  commitFetch : Option CodecovCommitData
  filesFetch : Option CodecovCommitData
deriving DecidableEq, Repr

/-- The first endpoint, as read by `codecovParamsForEndpoint`
(`settings['codecov.endpoints'][0]`): `none` models the `TypeError` from
reading a property of `undefined`. -/
def endpointOf (settings : Option SettingsTwo.Settings) : Option Endpoint :=
  settings.bind (fun s => s.endpoints.head?)

/-- Whether an `Except` computation succeeded. -/
def exceptOkB {ε α : Type} : Except ε α → Bool
  | .ok _ => true
  | .error _ => false

/-- Whether `getDecorations(root, settings, uri)` would resolve: it needs
`resolveURI(root, uri)` to succeed, the endpoint access inside
`Model.getFileLineCoverage` not to throw, and the fetch to succeed. -/
def getDecorationsOk (root : Option RootPair) (s : SettingsTwo.Settings)
    (uri : String) (env : RemoteEnv) : Bool :=
  exceptOkB (resolveURI root uri) && !s.endpoints.isEmpty &&
    env.publishFetch.isSome

/-- extension.ts `publishDecorations(settings, documents)`: one
publish-decorations notification per document, in order; the decoration
payload is awaited while the notification parameters are built, so a failed
fetch (or a URI that does not resolve) emits nothing for that document,
aborts the loop and rethrows.  Returns the emitted events and whether it
threw. -/
def publishDecorations (root : Option RootPair) (s : SettingsTwo.Settings)
    (docs : List String) (env : RemoteEnv) : List Event × Bool :=
  match docs with
  | [] => ([], false)
  | uri :: rest =>
    if getDecorationsOk root s uri env then
      let r := publishDecorations root s rest env
      (Event.publishDecorations uri :: r.1, r.2)
    else ([], true)

/-- extension.ts `updateFileCoverageClientContext`.  The leading
`Event.contextRefresh` marks the invocation itself; with no known root the
function returns without touching the context store.  Otherwise the repo
and commit dashboard URLs are computed statically and the fetched values
are added inside the `try` block, whose failure (at either fetch, or at the
endpoint access inside the model calls) is caught and logged; the final
`updateContext` call is outside the `try` and always runs. -/
def updateFileCoverageClientContext (root : Option RootPair)
    (settings : Option SettingsTwo.Settings) (env : RemoteEnv) : List Event :=
  Event.contextRefresh ::
  match root with
  | none => []
  | some r =>
    let p := codecovParamsForRepositoryCommit r
    let repoURL := "https://codecov.io/" ++ p.service ++ "/" ++ p.owner ++
      "/" ++ p.repo
    let ctx0 := objSet (objSet [] "codecov.repoURL" (CtxVal.str repoURL))
      "codecov.commitURL" (CtxVal.str (repoURL ++ "/commit/" ++ p.sha))
    let baseFileURL := repoURL ++ "/src/" ++ p.sha
    let step :=
      match endpointOf settings, env.commitFetch with
      | some _, some data =>
        let cc := getCommitCoverageRatio data
        let ctxA := objSet ctx0 "codecov.commitCoverage"
          (match cc with
           | some q => if q = 0 then CtxVal.null else CtxVal.str (toFixed1 q)
           | none => CtxVal.null)
        match endpointOf settings, env.filesFetch with
        | some _, some data2 =>
          let ctxB := (getFileCoverageRatios data2).foldl
            (fun c (pr : String × ℚ) =>
              let uri := "git://" ++ r.repo ++ "?" ++ r.rev ++ "#" ++ pr.1
              objSet
                (objSet c ("codecov.coverageRatio." ++ uri)
                  (CtxVal.str (toString (jsFloor pr.2))))
                ("codecov.fileURL." ++ uri)
                (CtxVal.str (baseFileURL ++ "/" ++ pr.1)))
            ctxA
          (ctxB, false)
        | _, _ => (ctxA, true)
      | _, _ => (ctx0, true)
    (if step.2 then [Event.logError] else []) ++ [Event.updateContext step.1]

/-- The result of running one handler. -/
structure HandlerResult where
  state : ConnState
  events : List Event
  threw : Bool
deriving DecidableEq, Repr

/-- extension.ts `connection.onDidChangeConfiguration`: resolve the new
merged configuration (a resolution failure throws before anything else);
if deep-equal to the current settings, return with no effect; otherwise
store the new settings, republish decorations for all open documents unless
no document has been opened yet, and, when the endpoint lists differ,
refresh the client context.  (With the pre-first-assignment `settings`
being `undefined`, reading `oldSettings['codecov.endpoints']` throws after
the publish.) -/
def onDidChangeConfiguration (st : ConnState)
    (raw : SettingsTwo.RawSettings) (env : RemoteEnv) : HandlerResult :=
  match SettingsTwo.resolveSettings raw with
  | none => ⟨st, [], true⟩
  | some newSettings =>
    if st.settings = some newSettings then ⟨st, [], false⟩
    else
      let oldSettings := st.settings
      let st1 := { st with settings := some newSettings }
      let pub :=
        if st1.lastOpenedTextDocument.isSome then
          publishDecorations st1.root newSettings st1.openDocs env
        else ([], false)
      if pub.2 then ⟨st1, pub.1, true⟩
      else
        match oldSettings with
        | none => ⟨st1, pub.1, true⟩
        | some olds =>
          if newSettings.endpoints = olds.endpoints then ⟨st1, pub.1, false⟩
          else
            ⟨st1, pub.1 ++
              updateFileCoverageClientContext st1.root (some newSettings) env,
              false⟩

/-- The initialize request's parameters, as read by the handler. -/
structure InitParams where
  originalRootUri : Option String
  root : Option String
  mergedSettings : SettingsTwo.RawSettings
deriving DecidableEq, Repr

/-- JS `a || b` on optional strings: first truthy (nonempty) operand. -/
def jsOrStr (a b : Option String) : Option String :=
  match a with
  | some s => if s.isEmpty then (match b with
      | some t => if t.isEmpty then none else some t
      | none => none)
    else some s
  | none => match b with
    | some t => if t.isEmpty then none else some t
    | none => none

/-- extension.ts `connection.onInitialize`: a second call hits the
`initialized` guard and throws before touching anything; a first call sets
the guard, resolves the ambient root from `originalRootUri || params.root`
when one is truthy, and resolves the initial settings.  (The returned
capabilities object is static data and is not modelled; the claims concern
the guard and the state.) -/
def onInit (st : ConnState) (p : InitParams) :
    ConnState × Except ExtErr Unit :=
  if st.inited then (st, .error .alreadyInit)
  else
    let st1 := { st with inited := true }
    let next : ConnState → ConnState × Except ExtErr Unit := fun st2 =>
      match SettingsTwo.resolveSettings p.mergedSettings with
      | none => (st2, .error .settingsError)
      | some s => ({ st2 with settings := some s }, .ok ())
    match jsOrStr p.originalRootUri p.root with
    | some rootStr =>
      match resolveURI none rootStr with
      | .error e => (st1, .error (.uriError e))
      | .ok r => next { st1 with root := some ⟨r.repo, r.rev⟩ }
    | none => next st1

/-- extension.ts `connection.onExecuteCommand`, synchronous part: the
toggle commands flip the stored settings value (and kick off detached
configuration-update and republish work, modelled separately); the
`codecov.setAPIToken` case reads the first endpoint (throwing a `TypeError`
if `settings` is still undefined or the endpoint list is empty), starts the
detached prompt chain, and falls through to the `codecov.help` case's
`break`; any unrecognized command reaches `default` and throws. -/
def onExecuteCommand (st : ConnState) (cmd : String) :
    ConnState × Except ExtErr Unit :=
  if cmd = TOGGLE_COVERAGE_DECORATIONS_COMMAND_ID then
    match st.settings with
    | none => (st, .error .typeError)
    | some s =>
      ({ st with settings := some { s with lineCoverage := !s.lineCoverage } },
        .ok ())
  else if cmd = TOGGLE_HITS_DECORATIONS_COMMAND_ID then
    match st.settings with
    | none => (st, .error .typeError)
    | some s =>
      ({ st with
          settings := some { s with lineHitCounts := !s.lineHitCounts } },
        .ok ())
  else if cmd = VIEW_FILE_COVERAGE_ACTION_ID then (st, .ok ())
  else if cmd = SET_API_TOKEN_COMMAND_ID then
    match endpointOf st.settings with
    | none => (st, .error .typeError)
    | some _ => (st, .ok ())
  else if cmd = HELP_ACTION_ID then (st, .ok ())
  else (st, .error (.unknownCommand cmd))

/-- Events of the detached `codecov.setAPIToken` task. -/
inductive TaskEvent where
  | configUpdateRequest (value : Option String)
  | publishStarted
  | logError
deriving DecidableEq, Repr

/-- The detached promise chain started by the `codecov.setAPIToken` case:
`showInputRequest(…).then(token => …).catch(err => console.error(…))`.
`prompt` is the prompt's outcome (`.error` = rejected, `.ok none` =
cancelled with `null`, `.ok (some tok)` = the entered string); a
non-cancelled response runs `executeConfigurationCommand`, whose
configuration-update request (`'' will remove` maps the empty string to a
`null` value) and detached republish each log their own failures.  Every
failure becomes a `logError` event; nothing escapes the chain. -/
def setAPITokenTask (prompt : Except Unit (Option String)) (cfgOk : Bool)
    (pubOk : Bool) : List TaskEvent :=
  match prompt with
  | .error _ => [.logError]
  | .ok none => []
  | .ok (some tok) =>
    [TaskEvent.configUpdateRequest (if tok.isEmpty then none else some tok)] ++
      (if cfgOk then [] else [.logError]) ++
      [TaskEvent.publishStarted] ++
      (if pubOk then [] else [.logError])


/-! ## Helper lemmas: takeWhile/dropWhile over appends -/

/-- `takeWhile` runs past a prefix whose elements all satisfy the
predicate. -/
theorem takeWhile_append_all {α : Type} (p : α → Bool) :
    ∀ (a b : List α), (∀ c ∈ a, p c = true) →
      (a ++ b).takeWhile p = a ++ b.takeWhile p := by
  intro a
  induction a with
  | nil => intro b _; simp
  | cons x t ih =>
    intro b h
    simp only [List.cons_append, List.takeWhile_cons, h x (by simp),
      if_true, List.cons.injEq, true_and]
    exact ih b (fun c hc => h c (by simp [hc]))

/-- `dropWhile` consumes a prefix whose elements all satisfy the
predicate. -/
theorem dropWhile_append_all {α : Type} (p : α → Bool) :
    ∀ (a b : List α), (∀ c ∈ a, p c = true) →
      (a ++ b).dropWhile p = b.dropWhile p := by
  intro a
  induction a with
  | nil => intro b _; simp
  | cons x t ih =>
    intro b h
    simp only [List.cons_append, List.dropWhile_cons, h x (by simp), if_true]
    exact ih b (fun c hc => h c (by simp [hc]))

/-! ## Helper lemmas: the URL model -/

/-- A valid scheme character is not a colon. -/
theorem validSchemeChar_ne_colon (c : Char) (h : validSchemeChar c = true) :
    (c != ':') = true := by
  rcases eq_or_ne c ':' with rfl | hne
  · exact absurd h (by decide)
  · simp [hne]

/-- Everything `parseAuthority` guarantees about a successful parse: the
components returned, the scheme nonempty and made of scheme characters, the
host nonempty and free of `/ ? # @`. -/
theorem parseAuthority_sound (scheme rest : List Char) (j : JSURL)
    (h : parseAuthority scheme rest = some j) :
    j.scheme = scheme ∧ j.scheme ≠ [] ∧
    (∀ c ∈ j.scheme, validSchemeChar c = true) ∧
    j.host ≠ [] ∧ (∀ c ∈ j.host, (c != '@') = true ∧ (!isAuthorityEnd c) = true) := by
  unfold parseAuthority at h
  dsimp only at h
  split at h
  · exact absurd h (by simp)
  next hc =>
    rw [Bool.not_eq_true] at hc
    simp only [Bool.or_eq_false_iff, Bool.not_eq_false'] at hc
    obtain ⟨⟨hs1, hs2⟩, hh⟩ := hc
    simp only [Option.some.injEq] at h
    subst h
    rw [List.isEmpty_eq_false] at hs1 hh
    refine ⟨rfl, hs1, ?_, hh, ?_⟩
    · intro c hcm
      exact List.all_eq_true.mp hs2 c hcm
    · intro c hcm
      simp only [List.mem_reverse] at hcm
      constructor
      · have h1 := List.mem_takeWhile_imp hcm
        exact h1
      · have hmem : c ∈ (rest.takeWhile (fun c => !isAuthorityEnd c)).reverse :=
          (List.takeWhile_prefix (fun c => c != '@')).subset hcm
        rw [List.mem_reverse] at hmem
        have h2 := List.mem_takeWhile_imp hmem
        exact h2

/-- `parseURLChars` in terms of `parseAuthority`, once the `://` separator
has been located. -/
theorem parseURLChars_eq (l rest : List Char)
    (hdrop : l.dropWhile (fun c => c != ':') = ':' :: '/' :: '/' :: rest) :
    parseURLChars l = parseAuthority (l.takeWhile (fun c => c != ':')) rest := by
  unfold parseURLChars
  rw [hdrop]
  exact rfl

/-- A host that already satisfies the invariants parses back to itself. -/
theorem parseAuthority_self (scheme host : List Char)
    (hs1 : scheme ≠ []) (hs2 : ∀ c ∈ scheme, validSchemeChar c = true)
    (hh1 : host ≠ [])
    (hh2 : ∀ c ∈ host, (c != '@') = true ∧ (!isAuthorityEnd c) = true) :
    parseAuthority scheme host = some ⟨scheme, host⟩ := by
  have hauth : host.takeWhile (fun c => !isAuthorityEnd c) = host :=
    List.takeWhile_eq_self_iff.mpr (fun c hc => (hh2 c hc).2)
  have hat : host.reverse.takeWhile (fun c => c != '@') = host.reverse :=
    List.takeWhile_eq_self_iff.mpr
      (fun c hc => (hh2 c (List.mem_reverse.mp hc)).1)
  unfold parseAuthority
  dsimp only
  rw [hauth, hat, List.reverse_reverse]
  rw [if_neg]
  rw [Bool.not_eq_true]
  simp only [Bool.or_eq_false_iff, Bool.not_eq_false']
  refine ⟨⟨?_, ?_⟩, ?_⟩
  · rw [List.isEmpty_eq_false]; exact hs1
  · exact List.all_eq_true.mpr hs2
  · rw [List.isEmpty_eq_false]; exact hh1

/-- Re-parsing `scheme://host` built from a successful parse gives the same
components back: `new URL(url.protocol + '//' + url.host)` round-trips. -/
theorem parseURLChars_recon (l : List Char) (j : JSURL)
    (h : parseURLChars l = some j) :
    parseURLChars (j.scheme ++ ':' :: '/' :: '/' :: j.host) = some j := by
  unfold parseURLChars at h
  split at h
  case h_2 => exact absurd h (by simp)
  case h_1 rest heq =>
    obtain ⟨-, hs1, hs2, hh1, hh2⟩ := parseAuthority_sound _ rest j h
    have hsc : ∀ c ∈ j.scheme, (c != ':') = true := fun c hc =>
      validSchemeChar_ne_colon c (hs2 c hc)
    have htake : (j.scheme ++ ':' :: '/' :: '/' :: j.host).takeWhile
        (fun c => c != ':') = j.scheme := by
      rw [takeWhile_append_all _ _ _ hsc]
      simp [List.takeWhile_cons]
    have hdrop : (j.scheme ++ ':' :: '/' :: '/' :: j.host).dropWhile
        (fun c => c != ':') = ':' :: '/' :: '/' :: j.host := by
      rw [dropWhile_append_all _ _ _ hsc]
      simp [List.dropWhile_cons]
    rw [parseURLChars_eq _ _ hdrop, htake]
    exact parseAuthority_self j.scheme j.host hs1 hs2 hh1 hh2

/-- The reconstructed `protocol//host` string is nonempty (its character
list contains at least the `:` separator). -/
theorem protocolAndHost_ne_empty (j : JSURL) : j.protocolAndHost ≠ "" := by
  intro h
  have hd := congrArg String.data h
  simp only [JSURL.protocolAndHost] at hd
  rcases j.scheme with _ | ⟨c, t⟩ <;> simp at hd

/-- `urlWithOnlyProtocolAndHost` is idempotent on its own outputs. -/
theorem urlWithOnlyProtocolAndHost_idem (s u : String)
    (h : urlWithOnlyProtocolAndHost s = some u) :
    urlWithOnlyProtocolAndHost u = some u := by
  unfold urlWithOnlyProtocolAndHost at h ⊢
  rcases hp : parseURLChars s.data with _ | j
  · rw [hp] at h; exact absurd h (by simp)
  · rw [hp] at h
    simp only [Option.map_some', Option.some.injEq] at h
    subst h
    have : (JSURL.protocolAndHost j).data =
        j.scheme ++ ':' :: '/' :: '/' :: j.host := rfl
    rw [this, parseURLChars_recon s.data j hp]
    rfl


/-- A normalized URL is nonempty (used for the JS truthiness test on the
second resolution pass). -/
theorem urlWithOnlyProtocolAndHost_ne_empty (s u : String)
    (h : urlWithOnlyProtocolAndHost s = some u) : u ≠ "" := by
  unfold urlWithOnlyProtocolAndHost at h
  rcases hp : parseURLChars s.data with _ | j
  · rw [hp] at h; exact absurd h (by simp)
  · rw [hp] at h
    simp only [Option.map_some', Option.some.injEq] at h
    subst h
    exact protocolAndHost_ne_empty j

/-! ## Helper lemmas: endpoint resolution -/


/-- Element-wise description of a successful `mapEndpoints`: same length,
tokens passed through, URLs defaulted (empty) or normalized (nonempty). -/
theorem mapEndpoints_get : ∀ (es res : List Endpoint),
    mapEndpoints es = some res →
    res.length = es.length ∧
    ∀ i f, es.get? i = some f → ∃ r, res.get? i = some r ∧
      r.token = f.token ∧ (f.url = "" → r.url = CODECOV_IO_URL) ∧
      (f.url ≠ "" → urlWithOnlyProtocolAndHost f.url = some r.url) := by
  intro es
  induction es with
  | nil =>
    intro res h
    simp only [mapEndpoints, Option.some.injEq] at h
    subst h
    exact ⟨rfl, by intro i f hf; simp at hf⟩
  | cons e t ih =>
    intro res h
    unfold mapEndpoints at h
    split at h
    · exact absurd h (by simp)
    next u hu =>
      rcases ht : mapEndpoints t with _ | rt
      · rw [ht] at h; exact absurd h (by simp)
      · rw [ht] at h
        simp only [Option.map_some', Option.some.injEq] at h
        subst h
        obtain ⟨hlen, hget⟩ := ih rt ht
        refine ⟨by simp [hlen], ?_⟩
        intro i f hf
        match i with
        | 0 =>
          simp only [List.get?, Option.some.injEq] at hf
          subst hf
          refine ⟨⟨u, e.token⟩, rfl, rfl, ?_, ?_⟩
          · intro hurl
            rw [if_pos hurl] at hu
            simpa using hu.symm
          · intro hurl
            rw [if_neg hurl] at hu
            simp [hu]
        | (n + 1) =>
          simp only [List.get?] at hf ⊢
          exact hget n f hf

/-- `mapEndpoints` is idempotent on its own outputs: every produced URL is
nonempty and re-normalizes to itself, and tokens are untouched. -/
theorem mapEndpoints_idem : ∀ (es res : List Endpoint),
    mapEndpoints es = some res → mapEndpoints res = some res := by
  intro es
  induction es with
  | nil =>
    intro res h
    simp only [mapEndpoints, Option.some.injEq] at h
    subst h
    rfl
  | cons e t ih =>
    intro res h
    unfold mapEndpoints at h
    split at h
    · exact absurd h (by simp)
    next u hu =>
      rcases ht : mapEndpoints t with _ | rt
      · rw [ht] at h; exact absurd h (by simp)
      · rw [ht] at h
        simp only [Option.map_some', Option.some.injEq] at h
        subst h
        have hune : u ≠ "" := by
          by_cases hurl : e.url = ""
          · rw [if_pos hurl] at hu
            intro hu0
            rw [hu0] at hu
            exact absurd hu (by decide)
          · rw [if_neg hurl] at hu
            exact urlWithOnlyProtocolAndHost_ne_empty e.url u hu
        have hidem : urlWithOnlyProtocolAndHost u = some u := by
          by_cases hurl : e.url = ""
          · rw [if_pos hurl] at hu
            have hcu : u = CODECOV_IO_URL := by simpa using hu.symm
            subst hcu
            decide
          · rw [if_neg hurl] at hu
            exact urlWithOnlyProtocolAndHost_idem e.url u hu
        unfold mapEndpoints
        rw [if_neg hune, hidem, ih rt ht]
        rfl

/-- A successful `resolveEndpoints` never yields an empty endpoint list. -/
theorem resolveEndpoints_ne_nil (x : Option (List Endpoint))
    (res : List Endpoint) (h : resolveEndpoints x = some res) : res ≠ [] := by
  rcases x with _ | es
  · simp only [resolveEndpoints, Option.some.injEq] at h
    subst h; simp
  · simp only [resolveEndpoints] at h
    split at h
    · simp only [Option.some.injEq] at h; subst h; simp
    next hne =>
      intro hnil
      subst hnil
      have hlen := (mapEndpoints_get es [] h).1
      rw [Bool.not_eq_true, List.isEmpty_eq_false] at hne
      exact hne (List.length_eq_zero.mp (by simpa using hlen.symm))

/-- `resolveEndpoints` is idempotent: resolving an already-resolved
endpoint list yields it unchanged. -/
theorem resolveEndpoints_idem (x : Option (List Endpoint))
    (res : List Endpoint) (h : resolveEndpoints x = some res) :
    resolveEndpoints (some res) = some res := by
  have hne := resolveEndpoints_ne_nil x res h
  have hres : res.isEmpty = false := by
    rw [List.isEmpty_eq_false]; exact hne
  have hgoal : resolveEndpoints (some res) = mapEndpoints res := by
    simp only [resolveEndpoints, hres, Bool.false_eq_true, if_false]
  rw [hgoal]
  rcases x with _ | es
  · simp only [resolveEndpoints, Option.some.injEq] at h
    subst h
    decide
  · simp only [resolveEndpoints] at h
    split at h
    · simp only [Option.some.injEq] at h
      subst h
      decide
    · exact mapEndpoints_idem es res h

/-! ## Helper lemmas: object writes and folds -/

/-- Writing a fresh key appends it. -/
theorem objSet_fresh {α : Type} (m : List (String × α)) (k : String) (v : α)
    (h : ∀ p ∈ m, p.1 ≠ k) : objSet m k v = m ++ [(k, v)] := by
  unfold objSet
  rw [if_neg]
  intro hany
  rw [List.any_eq_true] at hany
  obtain ⟨p, hp, hpk⟩ := hany
  exact h p hp (by simpa using hpk)

/-- Folding fresh-key writes over a list with pairwise-distinct derived keys
appends one entry per element, in order. -/
theorem foldl_objSet_append {κ V : Type} (g : κ → String × V) :
    ∀ (l : List κ) (acc : List (String × V)),
    (l.map (fun a => (g a).1)).Nodup →
    (∀ a ∈ l, ∀ p ∈ acc, p.1 ≠ (g a).1) →
    l.foldl (fun c a => objSet c (g a).1 (g a).2) acc = acc ++ l.map g := by
  intro l
  induction l with
  | nil => intro acc _ _; simp
  | cons a t ih =>
    intro acc hnd hdisj
    simp only [List.map_cons, List.nodup_cons] at hnd
    simp only [List.foldl_cons]
    rw [objSet_fresh acc (g a).1 (g a).2 (hdisj a (by simp))]
    rw [ih (acc ++ [g a]) hnd.2]
    · simp
    · intro b hb p hp
      rcases List.mem_append.mp hp with hp1 | hp2
      · exact hdisj b (by simp [hb]) p hp1
      · have hpga : p = g a := by simpa using hp2
        subst hpga
        intro hpeq
        exact hnd.1 (by
          rw [hpeq]
          exact List.mem_map.mpr ⟨b, hb, rfl⟩)

/-- Under distinct derived keys, `toLineCoverage` is exactly the entrywise
decoding of the file's line map. -/
theorem toLineCoverage_eq_map (data : CodecovCommitData) (path : String)
    (fd : FileData)
    (hlook : List.lookup path data.commit.report.files = some fd)
    (hnd : (fd.l.map (fun kv => lineKey kv.1)).Nodup) :
    toLineCoverage data path =
      fd.l.map (fun kv => (lineKey kv.1, decodeLineValue kv.2)) := by
  unfold toLineCoverage
  rw [hlook]
  have := foldl_objSet_append
    (fun kv : String × LineValue => (lineKey kv.1, decodeLineValue kv.2))
    fd.l [] (by simpa using hnd) (by simp)
  simpa using this

/-- The entry produced (or not) by one step of `getFileCoverageRatios`. -/
def ratioEntry (pf : String × FileData) : Option (String × ℚ) :=
  match toCoverageRatio (some pf.2) with
  | some r => if r = 0 then none else some (pf.1, r)
  | none => none

/-- Under distinct file paths, `getFileCoverageRatios` is the filtered map
of `ratioEntry` over the response's file table. -/
theorem getFileCoverageRatios_eq_filterMap (data : CodecovCommitData)
    (hnd : (data.commit.report.files.map Prod.fst).Nodup) :
    getFileCoverageRatios data = data.commit.report.files.filterMap ratioEntry := by
  unfold getFileCoverageRatios
  suffices h : ∀ (l : List (String × FileData)) (acc : List (String × ℚ)),
      (l.map Prod.fst).Nodup →
      (∀ pf ∈ l, ∀ p ∈ acc, p.1 ≠ pf.1) →
      l.foldl (fun ratios pf =>
        match toCoverageRatio (some pf.2) with
        | some ratio => if ratio = 0 then ratios else objSet ratios pf.1 ratio
        | none => ratios) acc = acc ++ l.filterMap ratioEntry by
    simpa using h data.commit.report.files [] hnd (by simp)
  intro l
  induction l with
  | nil => intro acc _ _; simp
  | cons a t ih =>
    intro acc hnd2 hdisj
    simp only [List.map_cons, List.nodup_cons] at hnd2
    simp only [List.foldl_cons, List.filterMap_cons]
    rcases hr : toCoverageRatio (some a.2) with _ | r
    · rw [ih acc hnd2.2 (fun pf hpf => hdisj pf (by simp [hpf]))]
      simp [ratioEntry, hr]
    · dsimp only
      by_cases hz : r = 0
      · rw [if_pos hz]
        rw [ih acc hnd2.2 (fun pf hpf => hdisj pf (by simp [hpf]))]
        simp [ratioEntry, hr, hz]
      · rw [if_neg hz]
        rw [objSet_fresh acc a.1 r (hdisj a (by simp))]
        rw [ih (acc ++ [(a.1, r)]) hnd2.2]
        · simp [ratioEntry, hr, hz]
        · intro pf hpf p hp
          rcases List.mem_append.mp hp with hp1 | hp2
          · exact hdisj pf (by simp [hpf]) p hp1
          · have hpa : p = (a.1, r) := by simpa using hp2
            subst hpa
            intro hpeq
            have hpeq2 : a.1 = pf.1 := hpeq
            exact hnd2.1 (by
              rw [hpeq2]
              exact List.mem_map.mpr ⟨pf, hpf, rfl⟩)

/-! ## Helper lemmas: the controller -/

/-- When every open document's decorations resolve, `publishDecorations`
emits exactly one publish per document, in order, and does not throw. -/
theorem publishDecorations_ok (root : Option RootPair)
    (s : SettingsTwo.Settings) (env : RemoteEnv) :
    ∀ docs : List String, (∀ u ∈ docs, getDecorationsOk root s u env = true) →
    publishDecorations root s docs env =
      (docs.map Event.publishDecorations, false) := by
  intro docs
  induction docs with
  | nil => intro _; rfl
  | cons u rest ih =>
    intro h
    unfold publishDecorations
    rw [if_pos (h u (by simp))]
    rw [ih (fun v hv => h v (by simp [hv]))]
    exact rfl

/-- A successfully resolved settings value has a nonempty endpoint list. -/
theorem SettingsTwo.resolve_endpoints_ne_nil (raw : SettingsTwo.RawSettings)
    (s : SettingsTwo.Settings) (h : SettingsTwo.resolveSettings raw = some s) :
    s.endpoints ≠ [] := by
  unfold SettingsTwo.resolveSettings at h
  rcases he : resolveEndpoints raw.endpoints with _ | eps
  · rw [he] at h; exact absurd h (by simp)
  · rw [he] at h
    simp only [Option.map_some', Option.some.injEq] at h
    subst h
    exact resolveEndpoints_ne_nil raw.endpoints eps he

/-- With a known root, a context refresh is the invocation marker, then
possibly a caught-failure log, then exactly one `updateContext` call. -/
theorem refresh_shape (r : RootPair) (settings : Option SettingsTwo.Settings)
    (env : RemoteEnv) :
    ∃ (b : Bool) (ctx : List (String × CtxVal)),
      updateFileCoverageClientContext (some r) settings env =
        Event.contextRefresh ::
          ((if b then [Event.logError] else []) ++ [Event.updateContext ctx]) := by
  unfold updateFileCoverageClientContext
  exact ⟨_, _, rfl⟩

/-- No event emitted by a context refresh is a decoration publish. -/
theorem refresh_no_pub (root : Option RootPair)
    (settings : Option SettingsTwo.Settings) (env : RemoteEnv) :
    (updateFileCoverageClientContext root settings env).filter Event.isPub = [] := by
  rcases root with _ | r
  · rfl
  · obtain ⟨b, ctx, hsh⟩ := refresh_shape r settings env
    rw [hsh]
    rcases b with _ | _ <;> rfl

/-- A context refresh always begins with its invocation marker. -/
theorem refresh_marker (root : Option RootPair)
    (settings : Option SettingsTwo.Settings) (env : RemoteEnv) :
    Event.contextRefresh ∈ updateFileCoverageClientContext root settings env := by
  unfold updateFileCoverageClientContext
  rcases root with _ | r <;> simp

/-- A context refresh performs an `updateContext` call exactly when the
root is known. -/
theorem refresh_updates_iff_root (root : Option RootPair)
    (settings : Option SettingsTwo.Settings) (env : RemoteEnv) :
    (∃ ctx, Event.updateContext ctx ∈
      updateFileCoverageClientContext root settings env) ↔ root.isSome := by
  rcases root with _ | r
  · simp only [Option.isSome_none, Bool.false_eq_true, iff_false]
    rintro ⟨ctx, hctx⟩
    unfold updateFileCoverageClientContext at hctx
    simp at hctx
  · simp only [Option.isSome_some, iff_true]
    obtain ⟨b, ctx, hsh⟩ := refresh_shape r settings env
    exact ⟨ctx, by rw [hsh]; simp⟩

/-! ## Helper lemmas: decoration-settings resolution -/

/-- `decide (some b ≠ some false) = b`. -/
theorem decide_some_ne_false (b : Bool) :
    decide (some b ≠ some false) = b := by cases b <;> decide

/-- `decide (some b = some true) = b`. -/
theorem decide_some_eq_true (b : Bool) :
    decide (some b = some true) = b := by cases b <;> decide

/-- Re-resolving an already-resolved decorations object (one that came from
a supplied decorations value) yields it unchanged. -/
theorem resolveDecorations_idem (d : SettingsOne.DecorationSettings) :
    SettingsOne.resolveDecorations
      (some (SettingsOne.resolveDecorations (some d))) =
    SettingsOne.resolveDecorations (some d) := by
  by_cases hd : d.hide = some true <;>
    simp [SettingsOne.resolveDecorations, hd, decide_some_ne_false,
      decide_some_eq_true]

/-! ## Claim theorems -/

/-- C1: for every current settings value and every ConfigurationChanged
event whose raw configuration resolves (via resolveSettings) to a settings
value deep-equal to the current one, the handler performs no decoration
republish, no context refresh, and leaves the controller state (settings,
root, lastOpenedTextDocument) unchanged. -/
theorem claim1_config_change_noop (st : ConnState)
    (raw : SettingsTwo.RawSettings) (env : RemoteEnv)
    (s : SettingsTwo.Settings)
    (hcur : st.settings = some s)
    (hres : SettingsTwo.resolveSettings raw = some s) :
    onDidChangeConfiguration st raw env = ⟨st, [], false⟩ := by
  unfold onDidChangeConfiguration
  rw [hres]
  dsimp only
  rw [hcur]
  simp

/-- Witness for C1 at a concrete state and event. -/
theorem claim1_config_change_noop_witness :
    onDidChangeConfiguration
      ⟨true, none, some ⟨true, true, false, [⟨"https://codecov.io", none⟩]⟩,
        none, []⟩
      ⟨none, none, none, none⟩ ⟨none, none, none⟩ =
    ⟨⟨true, none, some ⟨true, true, false, [⟨"https://codecov.io", none⟩]⟩,
        none, []⟩, [], false⟩ :=
  claim1_config_change_noop _ _ _
    ⟨true, true, false, [⟨"https://codecov.io", none⟩]⟩ (by decide) (by decide)

/-- C2: for every initialized controller state, a second InitializeHandshake
event always fails with AlreadyInitialized and leaves the previously
established state (root, settings) untouched; the
Uninitialized-to-Initialized transition therefore occurs at most once per
session. -/
theorem claim2_double_init (st : ConnState) (p : InitParams)
    (h : st.inited = true) :
    onInit st p = (st, Except.error ExtErr.alreadyInit) := by
  unfold onInit
  rw [h]
  simp

/-- Witness for C2 at a concrete initialized state. -/
theorem claim2_double_init_witness :
    onInit
      ⟨true, some ⟨"github.com/a/b", "rev1"⟩,
        some ⟨true, true, false, [⟨"https://codecov.io", none⟩]⟩, none, []⟩
      ⟨some "git://github.com/a/b?rev1", none, ⟨none, none, none, none⟩⟩ =
    (⟨true, some ⟨"github.com/a/b", "rev1"⟩,
        some ⟨true, true, false, [⟨"https://codecov.io", none⟩]⟩, none, []⟩,
      Except.error ExtErr.alreadyInit) :=
  claim2_double_init _ _ (by decide)

/-- C4 counterexample: settings resolution (first settings.ts version) is
not idempotent — at the empty raw settings, the second resolution adds a
`lineHitCounts: false` key to the decorations object that the first
resolution left absent. -/
theorem claim4_counterexample :
    (SettingsOne.resolveSettings ⟨none, none⟩).bind
      (fun s => SettingsOne.resolveSettings (SettingsOne.settingsToRaw s)) ≠
    SettingsOne.resolveSettings ⟨none, none⟩ := by decide

/-- C4 (amended): settings resolution is idempotent for every raw value
that supplies a decorations object; when the decorations object is absent,
re-resolution differs exactly by making `lineHitCounts` explicitly false
(endpoints re-resolve unchanged in both cases). -/
theorem claim4_amended (x : SettingsOne.RawSettings)
    (s : SettingsOne.Settings)
    (h : SettingsOne.resolveSettings x = some s) :
    (x.decorations ≠ none →
      SettingsOne.resolveSettings (SettingsOne.settingsToRaw s) = some s) ∧
    (x.decorations = none →
      SettingsOne.resolveSettings (SettingsOne.settingsToRaw s) =
        some ⟨⟨none, some true, some false⟩, s.endpoints⟩) := by
  unfold SettingsOne.resolveSettings at h
  rcases he : resolveEndpoints x.endpoints with _ | eps
  · rw [he] at h; exact absurd h (by simp)
  · rw [he] at h
    simp only [Option.map_some', Option.some.injEq] at h
    subst h
    have hidem := resolveEndpoints_idem x.endpoints eps he
    constructor
    · intro hdec
      rcases hx : x.decorations with _ | d
      · exact absurd hx hdec
      · simp only [SettingsOne.resolveSettings, SettingsOne.settingsToRaw]
        rw [hidem]
        simp [resolveDecorations_idem d]
    · intro hdec
      rw [hdec]
      simp only [SettingsOne.resolveSettings, SettingsOne.settingsToRaw]
      rw [hidem]
      have hdd : SettingsOne.resolveDecorations
          (some (SettingsOne.resolveDecorations none)) =
          ⟨none, some true, some false⟩ := by decide
      simp [hdd]

/-- Witness for C4 (amended) at a raw value that supplies a decorations
object. -/
theorem claim4_amended_witness :
    SettingsOne.resolveSettings
      (SettingsOne.settingsToRaw
        ⟨⟨none, some true, some false⟩, [⟨"https://codecov.io", none⟩]⟩) =
    some ⟨⟨none, some true, some false⟩, [⟨"https://codecov.io", none⟩]⟩ :=
  (claim4_amended ⟨some ⟨none, none, none⟩, none⟩
    ⟨⟨none, some true, some false⟩, [⟨"https://codecov.io", none⟩]⟩
    (by decide)).1 (by decide)

/-- C5 counterexample: the claim "includes every file whose totals ratio
string parses as a decimal number" is false — a file whose ratio string is
`"0"` parses to the number 0 but is omitted by the `if (ratio)` truthiness
test. -/
theorem claim5_counterexample :
    ¬ (∀ (data : CodecovCommitData) (p : String) (fd : FileData) (r : ℚ),
        (p, fd) ∈ data.commit.report.files → jsParseFloat fd.t.c = some r →
        (p, r) ∈ getFileCoverageRatios data) := by
  intro h
  have h0 := h ⟨⟨⟨[("a.ts", ⟨[], ⟨"0"⟩⟩)]⟩, ⟨none⟩⟩⟩ "a.ts" ⟨[], ⟨"0"⟩⟩ 0
    (by decide) (by decide)
  exact absurd h0 (by decide)

/-- C5 (amended): for every commit coverage response whose file table has
distinct paths, getFileCoverageRatios is the mapping that contains exactly
those files whose ratio string parses to a nonzero decimal number, with
that number as value; files whose ratio string fails numeric parse — and
also files whose ratio parses to 0, which the truthiness test conflates
with absence — are omitted, a single unparsable entry never aborts the
mapping, and no sentinel value is ever included. -/
theorem claim5_amended (data : CodecovCommitData)
    (hnd : (data.commit.report.files.map Prod.fst).Nodup)
    (p : String) (r : ℚ) :
    (p, r) ∈ getFileCoverageRatios data ↔
      ∃ fd, (p, fd) ∈ data.commit.report.files ∧
        jsParseFloat fd.t.c = some r ∧ r ≠ 0 := by
  rw [getFileCoverageRatios_eq_filterMap data hnd, List.mem_filterMap]
  constructor
  · rintro ⟨⟨p2, fd⟩, hmem, hent⟩
    unfold ratioEntry at hent
    rcases hr : toCoverageRatio (some fd) with _ | r2
    · rw [hr] at hent; simp at hent
    · rw [hr] at hent
      dsimp only at hent
      by_cases hz : r2 = 0
      · rw [if_pos hz] at hent; simp at hent
      · rw [if_neg hz] at hent
        simp only [Option.some.injEq, Prod.mk.injEq] at hent
        obtain ⟨hp, hrr⟩ := hent
        subst hp
        subst hrr
        refine ⟨fd, hmem, ?_, hz⟩
        unfold toCoverageRatio at hr
        dsimp only at hr
        by_cases hcs : fd.t.c = ""
        · rw [if_pos hcs] at hr; simp at hr
        · rwa [if_neg hcs] at hr
  · rintro ⟨fd, hmem, hparse, hz⟩
    refine ⟨(p, fd), hmem, ?_⟩
    unfold ratioEntry
    have hc : toCoverageRatio (some fd) = some r := by
      unfold toCoverageRatio
      dsimp only
      by_cases hcs : fd.t.c = ""
      · have h0 : jsParseFloat "" = none := by decide
        rw [hcs, h0] at hparse
        exact absurd hparse (by simp)
      · rw [if_neg hcs]; exact hparse
    rw [hc]
    dsimp only
    rw [if_neg hz]

/-- Witness for C5 (amended): a sibling with a valid nonzero ratio is
included while an `"n/a"` file sits beside it. -/
theorem claim5_amended_witness :
    ("b.ts", mkRat 101 2) ∈ getFileCoverageRatios
      ⟨⟨⟨[("a.ts", ⟨[], ⟨"n/a"⟩⟩), ("b.ts", ⟨[], ⟨"50.5"⟩⟩)]⟩, ⟨none⟩⟩⟩ :=
  (claim5_amended ⟨⟨⟨[("a.ts", ⟨[], ⟨"n/a"⟩⟩), ("b.ts", ⟨[], ⟨"50.5"⟩⟩)]⟩,
      ⟨none⟩⟩⟩ (by decide) "b.ts" (mkRat 101 2)).mpr
    ⟨⟨[], ⟨"50.5"⟩⟩, by decide, by decide, by decide⟩

/-- C8: getFileLineCoverage decodes the per-file line map so that for every
line entry a numeric value maps to that number, a string value splits on the
first `/` into integer hits and branches giving a hits/branches pair, a null
value maps to null, and a line absent from the response map is absent from
the result; if the requested path has no entry in the response at all, the
result is the empty mapping rather than an error.  (Line keys are compared
after the `parseInt`-then-restringify step the source applies; the distinct
derived-keys hypothesis is what JS object keys guarantee.) -/
theorem claim8_line_decoding (data : CodecovCommitData) (path : String) :
    (List.lookup path data.commit.report.files = none →
      toLineCoverage data path = []) ∧
    ∀ fd, List.lookup path data.commit.report.files = some fd →
      (fd.l.map (fun kv => lineKey kv.1)).Nodup →
      (∀ k n, (k, LineValue.num n) ∈ fd.l →
        (lineKey k, LineCoverage.num n) ∈ toLineCoverage data path) ∧
      (∀ k, (k, LineValue.null) ∈ fd.l →
        (lineKey k, LineCoverage.null) ∈ toLineCoverage data path) ∧
      (∀ k s a b hits branches, (k, LineValue.str s) ∈ fd.l →
        (splitOnChar '/' s.data).take 2 = [a, b] →
        jsParseInt (String.mk a) = some hits →
        jsParseInt (String.mk b) = some branches →
        (lineKey k, LineCoverage.branch (some hits) (some branches)) ∈
          toLineCoverage data path) ∧
      (∀ k, (∀ kv ∈ fd.l, lineKey kv.1 ≠ k) →
        ∀ v, (k, v) ∉ toLineCoverage data path) := by
  constructor
  · intro hnone
    unfold toLineCoverage
    rw [hnone]
  · intro fd hsome hnd
    have hmap := toLineCoverage_eq_map data path fd hsome hnd
    refine ⟨?_, ?_, ?_, ?_⟩
    · intro k n hmem
      rw [hmap]
      exact List.mem_map.mpr ⟨(k, LineValue.num n), hmem, rfl⟩
    · intro k hmem
      rw [hmap]
      exact List.mem_map.mpr ⟨(k, LineValue.null), hmem, rfl⟩
    · intro k s a b hits branches hmem hsplit hhits hbranches
      rw [hmap]
      refine List.mem_map.mpr ⟨(k, LineValue.str s), hmem, ?_⟩
      have hdec : decodeLineValue (LineValue.str s) =
          LineCoverage.branch (some hits) (some branches) := by
        simp only [decodeLineValue]
        rw [hsplit]
        simp only [List.headD_cons, List.get?]
        rw [hhits, hbranches]
      rw [hdec]
    · intro k hfresh v hmem
      rw [hmap] at hmem
      obtain ⟨kv, hkv, heq⟩ := List.mem_map.mp hmem
      have : lineKey kv.1 = k := congrArg Prod.fst heq
      exact hfresh kv hkv this

/-- Witness for C8 at the spec's worked example
`{ "12": 3, "13": "2/4", "14": null }`. -/
theorem claim8_line_decoding_witness :
    ("13", LineCoverage.branch (some 2) (some 4)) ∈
      toLineCoverage
        ⟨⟨⟨[("f.go",
            ⟨[("12", LineValue.num 3), ("13", LineValue.str "2/4"),
              ("14", LineValue.null)], ⟨"50"⟩⟩)]⟩, ⟨none⟩⟩⟩ "f.go" :=
  (((claim8_line_decoding
      ⟨⟨⟨[("f.go",
          ⟨[("12", LineValue.num 3), ("13", LineValue.str "2/4"),
            ("14", LineValue.null)], ⟨"50"⟩⟩)]⟩, ⟨none⟩⟩⟩ "f.go").2
    ⟨[("12", LineValue.num 3), ("13", LineValue.str "2/4"),
      ("14", LineValue.null)], ⟨"50"⟩⟩ (by decide) (by decide)).2.2.1)
    "13" "2/4" ['2'] ['4'] 2 4 (by decide) (by decide) (by decide) (by decide)

/-- C9: endpoint resolution: zero supplied endpoints (or none at all) give
exactly one endpoint at the public default with no token; otherwise every
supplied endpoint appears in order with its URL replaced by scheme+host
only (path, query and fragment stripped) and its token passed through
unchanged, including absence. -/
theorem claim9_endpoint_resolution :
    (resolveEndpoints none = some [⟨CODECOV_IO_URL, none⟩] ∧
     resolveEndpoints (some []) = some [⟨CODECOV_IO_URL, none⟩]) ∧
    ∀ es res, es ≠ [] → resolveEndpoints (some es) = some res →
      res.length = es.length ∧
      ∀ i e, es.get? i = some e → ∃ r, res.get? i = some r ∧
        r.token = e.token ∧
        ∀ j, e.url ≠ "" → parseURLChars e.url.data = some j →
          r.url = String.mk (j.scheme ++ ':' :: '/' :: '/' :: j.host) := by
  refine ⟨⟨by decide, by decide⟩, ?_⟩
  intro es res hne hres
  have hmap : mapEndpoints es = some res := by
    simp only [resolveEndpoints] at hres
    have hcond : ¬(es.isEmpty = true) := by
      rw [Bool.not_eq_true, List.isEmpty_eq_false]
      exact hne
    rwa [if_neg hcond] at hres
  obtain ⟨hlen, hget⟩ := mapEndpoints_get es res hmap
  refine ⟨hlen, ?_⟩
  intro i e he
  obtain ⟨r, hr, htok, -, hurl⟩ := hget i e he
  refine ⟨r, hr, htok, ?_⟩
  intro j hne2 hj
  have hu := hurl hne2
  unfold urlWithOnlyProtocolAndHost at hu
  rw [hj] at hu
  simpa [JSURL.protocolAndHost] using hu.symm

/-- Witness for C9 at the spec's test vector
`resolve({endpoints:[{url:"https://h.example/a/b?x=1"}]})`. -/
theorem claim9_endpoint_resolution_witness :
    ∃ r, [(⟨"https://h.example", none⟩ : Endpoint)].get? 0 = some r ∧
      r.token = (⟨"https://h.example/a/b?x=1", none⟩ : Endpoint).token ∧
      ∀ j, (⟨"https://h.example/a/b?x=1", none⟩ : Endpoint).url ≠ "" →
        parseURLChars
          (⟨"https://h.example/a/b?x=1", none⟩ : Endpoint).url.data = some j →
        r.url = String.mk (j.scheme ++ ':' :: '/' :: '/' :: j.host) :=
  ((claim9_endpoint_resolution.2 [⟨"https://h.example/a/b?x=1", none⟩]
    [⟨"https://h.example", none⟩] (by decide) (by decide)).2 0
    ⟨"https://h.example/a/b?x=1", none⟩ (by decide))

/-- C10 (implicit): a supplied endpoint whose url field is the empty string
is not parsed or rejected; its URL is silently replaced by the default
public service URL while its token, if any, is kept. -/
theorem claim10_empty_url_default (es res : List Endpoint) (i : Nat)
    (e : Endpoint) (hres : resolveEndpoints (some es) = some res)
    (he : es.get? i = some e) (hurl : e.url = "") :
    res.get? i = some ⟨CODECOV_IO_URL, e.token⟩ := by
  have hne : es ≠ [] := by
    intro hnil
    subst hnil
    simp [List.get?] at he
  have hmap : mapEndpoints es = some res := by
    simp only [resolveEndpoints] at hres
    have hcond : ¬(es.isEmpty = true) := by
      rw [Bool.not_eq_true, List.isEmpty_eq_false]
      exact hne
    rwa [if_neg hcond] at hres
  obtain ⟨-, hget⟩ := mapEndpoints_get es res hmap
  obtain ⟨r, hr, htok, hdef, -⟩ := hget i e he
  have hru : r = ⟨CODECOV_IO_URL, e.token⟩ := by
    rcases r with ⟨ru, rt⟩
    simp only [Endpoint.mk.injEq]
    exact ⟨by simpa using hdef hurl, by simpa using htok⟩
  rw [hru] at hr
  exact hr

/-- Witness for C10: an empty-url endpoint with a token resolves to the
default URL with the token kept. -/
theorem claim10_empty_url_default_witness :
    [(⟨"https://codecov.io", some "tok"⟩ : Endpoint)].get? 0 =
      some ⟨CODECOV_IO_URL, (⟨"", some "tok"⟩ : Endpoint).token⟩ :=
  claim10_empty_url_default [⟨"", some "tok"⟩]
    [⟨"https://codecov.io", some "tok"⟩] 0 ⟨"", some "tok"⟩
    (by decide) (by decide) (by decide)

/-- Publish events keep the publish filter. -/
theorem filter_isPub_map (docs : List String) :
    (docs.map Event.publishDecorations).filter Event.isPub =
      docs.map Event.publishDecorations := by
  rw [List.filter_eq_self]
  intro e he
  obtain ⟨u, -, rfl⟩ := List.mem_map.mp he
  rfl

/-- No refresh marker hides among publish events. -/
theorem no_refresh_in_pubs (docs : List String) :
    Event.contextRefresh ∉ docs.map Event.publishDecorations := by
  simp [List.mem_map]

/-- No context update hides among publish events. -/
theorem no_update_in_pubs (docs : List String)
    (ctx : List (String × CtxVal)) :
    Event.updateContext ctx ∉ docs.map Event.publishDecorations := by
  simp [List.mem_map]

/-- C3: for every ConfigurationChanged event whose resolved settings differ
from the current ones (in an environment where the remote responds and every
open document's URI resolves): the handler completes without throwing;
decorations are republished for the tracked open documents, but skipped
entirely if no document has been opened yet; and the context store is
refreshed (meaning: the refresh routine of §4.6 is invoked) if and only if
the resolved endpoint list changed.  The last conjunct records the §4.6
root guard: the refresh's `updateContext` call happens iff the endpoints
changed and a root is known. -/
theorem claim3_config_change_effects (st : ConnState)
    (raw : SettingsTwo.RawSettings) (env : RemoteEnv)
    (oldS newS : SettingsTwo.Settings)
    (hcur : st.settings = some oldS)
    (hres : SettingsTwo.resolveSettings raw = some newS)
    (hne : newS ≠ oldS)
    (hfetch : env.publishFetch.isSome = true)
    (hdocs : ∀ u ∈ st.openDocs, exceptOkB (resolveURI st.root u) = true) :
    (onDidChangeConfiguration st raw env).threw = false ∧
    ((onDidChangeConfiguration st raw env).events.filter Event.isPub =
      if st.lastOpenedTextDocument.isSome then
        st.openDocs.map Event.publishDecorations
      else []) ∧
    (Event.contextRefresh ∈ (onDidChangeConfiguration st raw env).events ↔
      newS.endpoints ≠ oldS.endpoints) ∧
    ((∃ ctx, Event.updateContext ctx ∈
        (onDidChangeConfiguration st raw env).events) ↔
      (newS.endpoints ≠ oldS.endpoints ∧ st.root.isSome = true)) := by
  have hend : (!newS.endpoints.isEmpty) = true := by
    have := SettingsTwo.resolve_endpoints_ne_nil raw newS hres
    simpa [List.isEmpty_eq_false] using this
  have hok : ∀ u ∈ st.openDocs, getDecorationsOk st.root newS u env = true := by
    intro u hu
    unfold getDecorationsOk
    rw [hdocs u hu, hend, hfetch]
    rfl
  have hne2 : ¬(st.settings = some newS) := by
    rw [hcur]
    intro hcontra
    exact hne (by injection hcontra with h2; exact h2.symm)
  have hrun : onDidChangeConfiguration st raw env =
      ⟨{ st with settings := some newS },
        (if st.lastOpenedTextDocument.isSome then
          st.openDocs.map Event.publishDecorations
         else []) ++
        (if newS.endpoints = oldS.endpoints then []
         else updateFileCoverageClientContext st.root (some newS) env),
        false⟩ := by
    unfold onDidChangeConfiguration
    rw [hres]
    dsimp only
    rw [if_neg hne2, hcur]
    have hpub := publishDecorations_ok st.root newS env st.openDocs hok
    rcases hlast : st.lastOpenedTextDocument.isSome with _ | _
    · by_cases hep : newS.endpoints = oldS.endpoints <;>
        simp [hlast, hep]
    · by_cases hep : newS.endpoints = oldS.endpoints <;>
        simp [hlast, hpub, hep]
  rw [hrun]
  refine ⟨rfl, ?_, ?_, ?_⟩
  · rw [List.filter_append]
    have h2 : ((if newS.endpoints = oldS.endpoints then []
        else updateFileCoverageClientContext st.root (some newS) env).filter
          Event.isPub) = [] := by
      by_cases hep : newS.endpoints = oldS.endpoints
      · simp [hep]
      · simp [hep, refresh_no_pub]
    rw [h2, List.append_nil]
    rcases hlast : st.lastOpenedTextDocument.isSome with _ | _
    · simp [hlast]
    · simp [hlast, filter_isPub_map]
  · by_cases hep : newS.endpoints = oldS.endpoints
    · simp [hep, no_refresh_in_pubs]
    · simp only [if_neg hep]
      constructor
      · intro _; exact hep
      · intro _
        exact List.mem_append.mpr (Or.inr (refresh_marker _ _ _))
  · by_cases hep : newS.endpoints = oldS.endpoints
    · simp only [if_pos hep, List.append_nil]
      constructor
      · rintro ⟨ctx, hctx⟩
        rcases hlast : st.lastOpenedTextDocument.isSome <;> rw [hlast] at hctx
        · simp at hctx
        · exact absurd hctx (no_update_in_pubs _ _)
      · rintro ⟨habs, -⟩
        exact absurd hep habs
    · simp only [if_neg hep]
      constructor
      · rintro ⟨ctx, hctx⟩
        rcases List.mem_append.mp hctx with hin | hin
        · exfalso
          rcases hlast : st.lastOpenedTextDocument.isSome <;> rw [hlast] at hin
          · simp at hin
          · exact absurd hin (no_update_in_pubs _ _)
        · exact ⟨hep, (refresh_updates_iff_root st.root (some newS) env).mp ⟨ctx, hin⟩⟩
      · rintro ⟨-, hroot⟩
        obtain ⟨ctx, hctx⟩ :=
          (refresh_updates_iff_root st.root (some newS) env).mpr hroot
        exact ⟨ctx, List.mem_append.mpr (Or.inr hctx)⟩

/-- Witness for C3: a hit-count toggle (endpoints unchanged) at a state
with one open document republishes decorations and triggers no context
refresh. -/
theorem claim3_config_change_effects_witness :
    (onDidChangeConfiguration
      ⟨true, some ⟨"github.com/a/b", "r1"⟩,
        some ⟨true, true, false, [⟨"https://codecov.io", none⟩]⟩,
        some "git://github.com/a/b?r1#f.ts", ["git://github.com/a/b?r1#f.ts"]⟩
      ⟨none, none, some true, none⟩
      ⟨some ⟨⟨⟨[]⟩, ⟨none⟩⟩⟩, none, none⟩).threw = false ∧
    ((onDidChangeConfiguration
      ⟨true, some ⟨"github.com/a/b", "r1"⟩,
        some ⟨true, true, false, [⟨"https://codecov.io", none⟩]⟩,
        some "git://github.com/a/b?r1#f.ts", ["git://github.com/a/b?r1#f.ts"]⟩
      ⟨none, none, some true, none⟩
      ⟨some ⟨⟨⟨[]⟩, ⟨none⟩⟩⟩, none, none⟩).events.filter Event.isPub =
      if (some "git://github.com/a/b?r1#f.ts" : Option String).isSome then
        ["git://github.com/a/b?r1#f.ts"].map Event.publishDecorations
      else []) ∧
    (Event.contextRefresh ∈ (onDidChangeConfiguration
      ⟨true, some ⟨"github.com/a/b", "r1"⟩,
        some ⟨true, true, false, [⟨"https://codecov.io", none⟩]⟩,
        some "git://github.com/a/b?r1#f.ts", ["git://github.com/a/b?r1#f.ts"]⟩
      ⟨none, none, some true, none⟩
      ⟨some ⟨⟨⟨[]⟩, ⟨none⟩⟩⟩, none, none⟩).events ↔
      (⟨true, true, true, [⟨"https://codecov.io", none⟩]⟩ :
        SettingsTwo.Settings).endpoints ≠
      (⟨true, true, false, [⟨"https://codecov.io", none⟩]⟩ :
        SettingsTwo.Settings).endpoints) ∧
    ((∃ ctx, Event.updateContext ctx ∈ (onDidChangeConfiguration
      ⟨true, some ⟨"github.com/a/b", "r1"⟩,
        some ⟨true, true, false, [⟨"https://codecov.io", none⟩]⟩,
        some "git://github.com/a/b?r1#f.ts", ["git://github.com/a/b?r1#f.ts"]⟩
      ⟨none, none, some true, none⟩
      ⟨some ⟨⟨⟨[]⟩, ⟨none⟩⟩⟩, none, none⟩).events) ↔
      ((⟨true, true, true, [⟨"https://codecov.io", none⟩]⟩ :
        SettingsTwo.Settings).endpoints ≠
       (⟨true, true, false, [⟨"https://codecov.io", none⟩]⟩ :
        SettingsTwo.Settings).endpoints ∧
       (some (⟨"github.com/a/b", "r1"⟩ : RootPair)).isSome = true)) :=
  claim3_config_change_effects
    ⟨true, some ⟨"github.com/a/b", "r1"⟩,
      some ⟨true, true, false, [⟨"https://codecov.io", none⟩]⟩,
      some "git://github.com/a/b?r1#f.ts", ["git://github.com/a/b?r1#f.ts"]⟩
    ⟨none, none, some true, none⟩
    ⟨some ⟨⟨⟨[]⟩, ⟨none⟩⟩⟩, none, none⟩
    ⟨true, true, false, [⟨"https://codecov.io", none⟩]⟩
    ⟨true, true, true, [⟨"https://codecov.io", none⟩]⟩
    (by decide) (by decide) (by decide) (by decide) (by decide)

/-- C6: the ExecuteCommand handler fails with UnknownCommand for every
unrecognized command name, and executing the recognized command
`codecov.setAPIToken` does not raise an error from the handler — its case
falls through to the help case's `break` — while the detached prompt/update
chain turns every failure into a console log, never a propagated error. -/
theorem claim6_execute_command (st : ConnState) (s : SettingsTwo.Settings)
    (hset : st.settings = some s) (hep : s.endpoints ≠ []) :
    (∀ cmd, cmd ≠ TOGGLE_COVERAGE_DECORATIONS_COMMAND_ID →
      cmd ≠ TOGGLE_HITS_DECORATIONS_COMMAND_ID →
      cmd ≠ VIEW_FILE_COVERAGE_ACTION_ID →
      cmd ≠ SET_API_TOKEN_COMMAND_ID → cmd ≠ HELP_ACTION_ID →
      (onExecuteCommand st cmd).2 =
        Except.error (ExtErr.unknownCommand cmd)) ∧
    ((onExecuteCommand st SET_API_TOKEN_COMMAND_ID).2 = Except.ok ()) ∧
    (∀ cfgOk pubOk,
      setAPITokenTask (Except.error ()) cfgOk pubOk = [TaskEvent.logError]) ∧
    (∀ tok pubOk,
      TaskEvent.logError ∈ setAPITokenTask (Except.ok (some tok)) false pubOk) ∧
    (∀ tok cfgOk,
      TaskEvent.logError ∈ setAPITokenTask (Except.ok (some tok)) cfgOk false) := by
  refine ⟨?_, ?_, ?_, ?_, ?_⟩
  · intro cmd h1 h2 h3 h4 h5
    unfold onExecuteCommand
    simp [h1, h2, h3, h4, h5]
  · unfold onExecuteCommand
    rw [if_neg (by decide), if_neg (by decide), if_neg (by decide),
      if_pos rfl]
    unfold endpointOf
    rw [hset]
    rcases hepl : s.endpoints with _ | ⟨e0, rest⟩
    · exact absurd hepl hep
    · simp [hepl]
  · intro cfgOk pubOk
    rfl
  · intro tok pubOk
    unfold setAPITokenTask
    simp
  · intro tok cfgOk
    unfold setAPITokenTask
    rcases cfgOk with _ | _ <;> simp

/-- Witness for C6 at a concrete state: an unknown command is rejected, the
token command succeeds, and a failed prompt only logs. -/
theorem claim6_execute_command_witness :
    ((onExecuteCommand
      ⟨true, none, some ⟨true, true, false, [⟨"https://codecov.io", none⟩]⟩,
        none, []⟩ "bogus.command").2 =
      Except.error (ExtErr.unknownCommand "bogus.command")) ∧
    ((onExecuteCommand
      ⟨true, none, some ⟨true, true, false, [⟨"https://codecov.io", none⟩]⟩,
        none, []⟩ SET_API_TOKEN_COMMAND_ID).2 = Except.ok ()) ∧
    (setAPITokenTask (Except.error ()) true true = [TaskEvent.logError]) :=
  ⟨(claim6_execute_command
      ⟨true, none, some ⟨true, true, false, [⟨"https://codecov.io", none⟩]⟩,
        none, []⟩ ⟨true, true, false, [⟨"https://codecov.io", none⟩]⟩
      (by decide) (by decide)).1 "bogus.command"
      (by decide) (by decide) (by decide) (by decide) (by decide),
   (claim6_execute_command
      ⟨true, none, some ⟨true, true, false, [⟨"https://codecov.io", none⟩]⟩,
        none, []⟩ ⟨true, true, false, [⟨"https://codecov.io", none⟩]⟩
      (by decide) (by decide)).2.1,
   (claim6_execute_command
      ⟨true, none, some ⟨true, true, false, [⟨"https://codecov.io", none⟩]⟩,
        none, []⟩ ⟨true, true, false, [⟨"https://codecov.io", none⟩]⟩
      (by decide) (by decide)).2.2.1 true true⟩

/-- C7: during a context refresh with a known root, any coverage-fetch
failure is caught and logged rather than propagated, and the statically
computed repository URL and commit URL context keys are still written to
the context store despite the failure (partial success). -/
theorem claim7_context_refresh_partial (r : RootPair)
    (settings : Option SettingsTwo.Settings) (env : RemoteEnv)
    (hfail : env.commitFetch = none ∨ env.filesFetch = none) :
    Event.logError ∈ updateFileCoverageClientContext (some r) settings env ∧
    ∃ ctx, Event.updateContext ctx ∈
        updateFileCoverageClientContext (some r) settings env ∧
      List.lookup "codecov.repoURL" ctx = some (CtxVal.str
        ("https://codecov.io/" ++
          (codecovParamsForRepositoryCommit r).service ++ "/" ++
          (codecovParamsForRepositoryCommit r).owner ++ "/" ++
          (codecovParamsForRepositoryCommit r).repo)) ∧
      List.lookup "codecov.commitURL" ctx = some (CtxVal.str
        ("https://codecov.io/" ++
          (codecovParamsForRepositoryCommit r).service ++ "/" ++
          (codecovParamsForRepositoryCommit r).owner ++ "/" ++
          (codecovParamsForRepositoryCommit r).repo ++ "/commit/" ++
          (codecovParamsForRepositoryCommit r).sha)) := by
  unfold updateFileCoverageClientContext
  dsimp only
  rcases hepo : endpointOf settings with _ | ep
  · dsimp only
    refine ⟨by simp, ?_⟩
    refine ⟨_, List.mem_cons.mpr (Or.inr (List.mem_append.mpr
      (Or.inr (List.mem_singleton.mpr rfl)))), ?_, ?_⟩ <;> exact rfl
  · rcases hcf : env.commitFetch with _ | data
    · dsimp only
      refine ⟨by simp, ?_⟩
      refine ⟨_, List.mem_cons.mpr (Or.inr (List.mem_append.mpr
        (Or.inr (List.mem_singleton.mpr rfl)))), ?_, ?_⟩ <;> exact rfl
    · have hff : env.filesFetch = none := by
        rcases hfail with hfail | hfail
        · rw [hcf] at hfail; exact absurd hfail (by simp)
        · exact hfail
      rw [hff]
      dsimp only
      refine ⟨by simp, ?_⟩
      refine ⟨_, List.mem_cons.mpr (Or.inr (List.mem_append.mpr
        (Or.inr (List.mem_singleton.mpr rfl)))), ?_, ?_⟩ <;> exact rfl

/-- Witness for C7: with the remote failing entirely, the refresh still
logs and writes the two static URL keys. -/
theorem claim7_context_refresh_partial_witness :
    Event.logError ∈ updateFileCoverageClientContext
      (some ⟨"github.com/a/b", "r1"⟩) none ⟨none, none, none⟩ ∧
    ∃ ctx, Event.updateContext ctx ∈ updateFileCoverageClientContext
        (some ⟨"github.com/a/b", "r1"⟩) none ⟨none, none, none⟩ ∧
      List.lookup "codecov.repoURL" ctx = some (CtxVal.str
        ("https://codecov.io/" ++
          (codecovParamsForRepositoryCommit ⟨"github.com/a/b", "r1"⟩).service ++
          "/" ++
          (codecovParamsForRepositoryCommit ⟨"github.com/a/b", "r1"⟩).owner ++
          "/" ++
          (codecovParamsForRepositoryCommit ⟨"github.com/a/b", "r1"⟩).repo)) ∧
      List.lookup "codecov.commitURL" ctx = some (CtxVal.str
        ("https://codecov.io/" ++
          (codecovParamsForRepositoryCommit ⟨"github.com/a/b", "r1"⟩).service ++
          "/" ++
          (codecovParamsForRepositoryCommit ⟨"github.com/a/b", "r1"⟩).owner ++
          "/" ++
          (codecovParamsForRepositoryCommit ⟨"github.com/a/b", "r1"⟩).repo ++
          "/commit/" ++
          (codecovParamsForRepositoryCommit ⟨"github.com/a/b", "r1"⟩).sha)) :=
  claim7_context_refresh_partial ⟨"github.com/a/b", "r1"⟩ none
    ⟨none, none, none⟩ (Or.inl rfl)
